import Mathlib

/-!
Verification development for the peer-review service.

Shallow embedding of the core components:
* `DistributorService` (src/app/services/distributor_service.py):
  automatic derangement generation (Sattolo-style shuffle driven by the
  outputs of `rng.randrange`) and manual assignment-list validation;
* `MongoSubmissionDeliveredRepository.save_message`
  (src/app/database/mongo_events.py): idempotent upsert of delivered
  submission events keyed by `(assignmentId, studentId)`;
* `ReviewSubmissionConsumer._on_message` (src/app/services/consumer_service.py):
  per-message ack/nack decision;
* `ReviewService` and `MongoReviewRepository`
  (src/app/services/review_service.py, src/app/database/mongo_review.py):
  role-gated review creation and submission over a stored review list.

Randomness is embedded as explicit input streams: the shuffle receives the
list of values produced by `rng.randrange(0, i)` (constrained by
`ValidChoices`), and review-id generation receives the values produced by
`random.randint(0, 99999)`.  Wall-clock instants (`datetime.now`) are passed
as explicit parameters.
-/

/-- Exchange the entries at positions `a` and `b`, mirroring the Python
parallel assignment `xs[a], xs[b] = xs[b], xs[a]`.  Out-of-range positions
leave the list unchanged (unreachable in the embedded code). -/
def swapNth (l : List α) (a b : Nat) : List α :=
  match l[a]?, l[b]? with
  | some x, some y => (l.set a y).set b x
  | _, _ => l

theorem length_swapNth (l : List α) (a b : Nat) :
    (swapNth l a b).length = l.length := by
  unfold swapNth
  cases l[a]? <;> cases l[b]? <;> simp

theorem swapNth_getElem? (l : List α) (a b p : Nat)
    (ha : a < l.length) (hb : b < l.length) :
    (swapNth l a b)[p]? = l[if p = b then a else if p = a then b else p]? := by
  obtain ⟨x, hx⟩ : ∃ x, l[a]? = some x := ⟨l[a], List.getElem?_eq_getElem ha⟩
  obtain ⟨y, hy⟩ : ∃ y, l[b]? = some y := ⟨l[b], List.getElem?_eq_getElem hb⟩
  unfold swapNth
  rw [hx, hy]
  by_cases hpb : p = b
  · subst hpb
    rw [if_pos rfl, List.getElem?_set_self (by simpa using hb), hx]
  · rw [if_neg hpb, List.getElem?_set_ne (fun h => hpb h.symm)]
    by_cases hpa : p = a
    · subst hpa
      rw [if_pos rfl, List.getElem?_set_self ha, hy]
    · rw [if_neg hpa, List.getElem?_set_ne (fun h => hpa h.symm)]

theorem swapNth_getElem?_other (l : List α) (a b p : Nat)
    (hpa : p ≠ a) (hpb : p ≠ b) :
    (swapNth l a b)[p]? = l[p]? := by
  unfold swapNth
  cases hx : l[a]? <;> cases hy : l[b]? <;> simp only
  rw [List.getElem?_set_ne (fun h => hpb h.symm),
      List.getElem?_set_ne (fun h => hpa h.symm)]

/-- The entries of `l` at pairwise-different positions are pairwise
different values. -/
def PairwiseDistinct (l : List α) : Prop :=
  ∀ p q, p < l.length → q < l.length → p ≠ q → l[p]? ≠ l[q]?

theorem pairwiseDistinct_of_nodup {l : List α} (h : l.Nodup) :
    PairwiseDistinct l := by
  intro p q hp hq hne
  rw [List.getElem?_eq_getElem hp, List.getElem?_eq_getElem hq]
  intro hcontra
  exact hne (h.getElem_inj_iff.mp (Option.some_injective _ hcontra))

theorem pairwiseDistinct_swapNth {l : List α} (a b : Nat)
    (ha : a < l.length) (hb : b < l.length) (h : PairwiseDistinct l) :
    PairwiseDistinct (swapNth l a b) := by
  intro p q hp hq hne
  rw [length_swapNth] at hp hq
  rw [swapNth_getElem? l a b p ha hb, swapNth_getElem? l a b q ha hb]
  apply h
  · split <;> [exact ha; skip]
    split <;> [exact hb; assumption]
  · split <;> [exact ha; skip]
    split <;> [exact hb; assumption]
  · by_cases hpb : p = b <;> by_cases hqb : q = b <;>
      by_cases hpa : p = a <;> by_cases hqa : q = a <;>
      simp_all <;> omega

/-- Validity of the stream of values produced by `rng.randrange(0, i)` as the
loop index `i` runs from `n - 1` down to `1`: the value consumed at index `i`
is strictly below `i`. -/
inductive ValidChoices : Nat → List Nat → Prop
  | nil : ValidChoices 0 []
  | cons {i j : Nat} {rest : List Nat} :
      j < i + 1 → ValidChoices i rest → ValidChoices (i + 1) (j :: rest)

theorem validChoices_zero {cs : List Nat} (h : ValidChoices 0 cs) : cs = [] := by
  cases h; rfl

/-- The in-place shuffle loop of `DistributorService._auto_distribute`:
`for i in range(n - 1, 0, -1): j = rng.randrange(0, i); swap(i, j)`.
The first argument of the recursion is the current loop index, the choice
list carries the successive values of `j`. -/
def sattoloLoop (l : List α) : Nat → List Nat → List α
  | 0, _ => l
  | _ + 1, [] => l
  | i + 1, j :: rest => sattoloLoop (swapNth l (i + 1) j) i rest

theorem sattoloLoop_length (l : List α) (i : Nat) (cs : List Nat) :
    (sattoloLoop l i cs).length = l.length := by
  induction cs generalizing l i with
  | nil => cases i <;> rfl
  | cons j rest ih =>
      cases i with
      | zero => rfl
      | succ i => rw [sattoloLoop, ih, length_swapNth]

theorem sattoloLoop_untouched (l : List α) (i : Nat) (cs : List Nat)
    (hv : ValidChoices i cs) :
    ∀ p, i < p → (sattoloLoop l i cs)[p]? = l[p]? := by
  induction hv generalizing l with
  | nil => intro p _; rfl
  | @cons i j rest hj _ ih =>
      intro p hp
      rw [sattoloLoop, ih (swapNth l (i + 1) j) p (by omega),
          swapNth_getElem?_other l (i + 1) j p (by omega) (by omega)]

/-- Core invariant of the shuffle loop run from index `i` down to `1` on the
positions `0 .. i`: (A) every position up to `i` ends holding a value
different from its original one, and (B) every position up to `i` ends
holding a value that originally lived at some position up to `i`. -/
theorem sattoloLoop_spec {i : Nat} {cs : List Nat} (hv : ValidChoices i cs) :
    ∀ (l : List α), 1 ≤ i → i < l.length → PairwiseDistinct l →
      (∀ p, p ≤ i → (sattoloLoop l i cs)[p]? ≠ l[p]?) ∧
      (∀ p, p ≤ i → ∃ q, q ≤ i ∧ (sattoloLoop l i cs)[p]? = l[q]?) := by
  induction hv with
  | nil => intro l h1 _ _; omega
  | @cons i j rest hj hrest ih =>
      intro l _ hlen hpd
      have hjlt : j < l.length := by omega
      have hilt : i + 1 < l.length := hlen
      have hres : sattoloLoop l (i + 1) (j :: rest) =
          sattoloLoop (swapNth l (i + 1) j) i rest := rfl
      have hswap_len : (swapNth l (i + 1) j).length = l.length :=
        length_swapNth l (i + 1) j
      have hget : ∀ p, p < l.length → (swapNth l (i + 1) j)[p]? =
          l[if p = j then i + 1 else if p = i + 1 then j else p]? := by
        intro p _
        exact swapNth_getElem? l (i + 1) j p hilt hjlt
      have htop : (sattoloLoop l (i + 1) (j :: rest))[i + 1]? = l[j]? := by
        rw [hres, sattoloLoop_untouched _ i rest hrest (i + 1) (by omega),
            hget (i + 1) hilt, if_neg (by omega : ¬ (i + 1 = j)), if_pos rfl]
      cases i with
      | zero =>
          -- bottom of the loop: a single swap of positions 1 and 0
          have hj0 : j = 0 := by omega
          subst hj0
          have hrest0 : rest = [] := validChoices_zero hrest
          subst hrest0
          have hgetp : ∀ p, p < l.length → (sattoloLoop l 1 [0])[p]? =
              l[if p = 0 then 1 else if p = 1 then 0 else p]? := by
            intro p hp
            show (swapNth l 1 0)[p]? = _
            exact swapNth_getElem? l 1 0 p hilt hjlt
          constructor
          · intro p hp
            interval_cases p
            · rw [hgetp 0 (by omega), if_pos rfl]
              exact hpd 1 0 hilt (by omega) (by omega)
            · rw [hgetp 1 (by omega), if_neg (by omega), if_pos rfl]
              exact hpd 0 1 (by omega) hilt (by omega)
          · intro p hp
            interval_cases p
            · exact ⟨1, by omega, by rw [hgetp 0 (by omega)]; rfl⟩
            · exact ⟨0, by omega, by
                rw [hgetp 1 (by omega), if_neg (by omega), if_pos rfl]⟩
      | succ k =>
          set i := k + 1 with hi
          have hpd' : PairwiseDistinct (swapNth l (i + 1) j) :=
            pairwiseDistinct_swapNth (i + 1) j hilt hjlt hpd
          obtain ⟨ihA, ihB⟩ := ih (swapNth l (i + 1) j) (by omega)
            (by omega) hpd'
          refine ⟨?_, ?_⟩
          · intro p hp
            rcases Nat.lt_or_ge p (i + 1) with hplt | hpge
            · -- p ≤ i : handled through the recursive call
              have hp' : p ≤ i := by omega
              by_cases hpj : p = j
              · -- position j received the old top value; the recursive
                -- call then moved yet another value there
                obtain ⟨q, hq, hqe⟩ := ihB p hp'
                have hAj := ihA p hp'
                have hqp : q ≠ p := by
                  intro h
                  subst h
                  exact hAj hqe
                have hql : (swapNth l (i + 1) j)[q]? = l[q]? := by
                  rw [hget q (by omega), if_neg (by omega : ¬ q = j),
                      if_neg (by omega : ¬ q = i + 1)]
                rw [hres, hqe, hql]
                exact hpd q p (by omega) (by omega) hqp
              · have hql : (swapNth l (i + 1) j)[p]? = l[p]? := by
                  rw [hget p (by omega), if_neg hpj,
                      if_neg (by omega : ¬ p = i + 1)]
                rw [hres, ← hql]
                exact ihA p hp'
            · -- p = i + 1 : final position, holds the old value of slot j
              have hpe : p = i + 1 := by omega
              subst hpe
              rw [htop]
              exact hpd j (i + 1) hjlt hilt (by omega)
          · intro p hp
            rcases Nat.lt_or_ge p (i + 1) with hplt | hpge
            · obtain ⟨q, hq, hqe⟩ := ihB p (by omega)
              by_cases hqj : q = j
              · refine ⟨i + 1, by omega, ?_⟩
                rw [hres, hqe, hqj, hget j (by omega), if_pos rfl]
              · refine ⟨q, by omega, ?_⟩
                rw [hres, hqe, hget q (by omega), if_neg hqj,
                    if_neg (by omega : ¬ q = i + 1)]
            · have hpe : p = i + 1 := by omega
              subst hpe
              exact ⟨j, by omega, htop⟩

/-- The fixed-point test `any(subs_perm[i] == subs[i] for i in range(n))`
of `_auto_distribute`, for two parallel lists of equal length. -/
def hasFixedPoint : List String → List String → Bool
  | x :: xs, y :: ys => (x == y) || hasFixedPoint xs ys
  | _, _ => false

/-- The fallback rotation `subs_perm[1:] + subs_perm[:1]`. -/
def rotateOne (l : List String) : List String :=
  l.drop 1 ++ l.take 1

theorem hasFixedPoint_eq_false {a b : List String}
    (h : ∀ p, p < a.length → a[p]? ≠ b[p]?) :
    hasFixedPoint a b = false := by
  induction a generalizing b with
  | nil => cases b <;> rfl
  | cons x xs ih =>
      cases b with
      | nil => rfl
      | cons y ys =>
          have h0 := h 0 (by simp)
          simp only [List.getElem?_cons_zero, ne_eq, Option.some.injEq] at h0
          rw [hasFixedPoint]
          simp only [Bool.or_eq_false_iff, beq_eq_false_iff_ne, ne_eq]
          refine ⟨h0, ih ?_⟩
          intro p hp
          have := h (p + 1) (by simpa using Nat.succ_lt_succ hp)
          simpa using this

/-- Derangement property of the embedded shuffle: on a duplicate-free list of
length at least 2, with any valid stream of `randrange` outputs, no position
of the shuffled list holds its original value. -/
theorem sattoloLoop_derangement (l : List String) (cs : List Nat)
    (h2 : 2 ≤ l.length) (hnd : l.Nodup)
    (hv : ValidChoices (l.length - 1) cs) :
    ∀ p, p < l.length → (sattoloLoop l (l.length - 1) cs)[p]? ≠ l[p]? := by
  intro p hp
  obtain ⟨hA, _⟩ := sattoloLoop_spec hv l (by omega) (by omega)
    (pairwiseDistinct_of_nodup hnd)
  exact hA p (by omega)

/-! ## Data model (src/app/schemas/review.py) -/

/-- A delivered-submission fact, as returned by
`list_delivered_by_assignment`. -/
structure DeliveredSubmission where
  assignmentId : String
  submissionId : String
  studentId : String
deriving DecidableEq

/-- A reviewer-to-submission pair. -/
structure AssignmentPair where
  reviewer : String
  submissionId : String
deriving DecidableEq

/-- A named rubric criterion. -/
structure RubricItem where
  criterio : String
deriving DecidableEq

/-- One scored criterion of a review. -/
structure ValutazioneItem where
  criterio : String
  punteggio : Int
deriving DecidableEq

/-- The `startProcess` request payload.  `deadline` instants are embedded as
opaque naturals. -/
structure ReviewProcessCreate where
  assignmentId : String
  automatic_mode : Bool
  deadline : Nat
  lista_assegnazioni : List AssignmentPair
  rubrica : List RubricItem
deriving DecidableEq

/-! ## Distributor (src/app/services/distributor_service.py)

`DistributionError` messages are embedded structurally: each constructor of
`DistErr` corresponds to one of the `raise DistributionError(...)` sites, and
carries the data interpolated into the Python message. -/

/-- One entry of the `errors` list accumulated by `_validate_manual`:
either a self-review report (naming reviewer and submission) or an
unknown-submission report (naming the submission). -/
inductive PairViolation where
  | selfReview (reviewer : String) (submissionId : String)
  | unknownSubmission (submissionId : String)
deriving DecidableEq

/-- Structural counterpart of `DistributionError`, one constructor per
raise site of the distributor (the `derangementFailed` constructor embeds
the final `assert` of `_auto_distribute`). -/
inductive DistErr where
  | noSubmissions
  | manualListRequired
  | missingStudents (ids : List String)
  | invalidPairs (errors : List PairViolation)
  | duplicateReviewer
  | singleStudent
  | derangementFailed
deriving DecidableEq

/-- Lookup in the dict `{s.studentId: s.submissionId for s in submissions}`:
the last entry for a key wins, as in a Python dict comprehension. -/
def studentToSubmission (delivered : List DeliveredSubmission)
    (st : String) : Option String :=
  (delivered.reverse.find? (fun d => d.studentId == st)).map (·.submissionId)

/-- Total version of the dict access `student_to_submission[r]`; the default
is unreachable when `r` is a delivered student. -/
def studentToSubmissionD (delivered : List DeliveredSubmission)
    (st : String) : String :=
  (studentToSubmission delivered st).getD ""

/-- The key set of the dict, i.e. the distinct delivered student ids. -/
def studentsOf (delivered : List DeliveredSubmission) : List String :=
  (delivered.map (·.studentId)).dedup

/-- The delivered submission ids (`submission_ids` set). -/
def submissionIdsOf (delivered : List DeliveredSubmission) : List String :=
  delivered.map (·.submissionId)

/-- `sorted(students)`: the delivered student ids in ascending order. -/
def sortedReviewers (delivered : List DeliveredSubmission) : List String :=
  List.insertionSort (· ≤ ·) (studentsOf delivered)

/-- The reports the loop body of `_validate_manual` appends for one manual
pair: a self-review report when the reviewer's own (truthy) submission is
assigned, then an unknown-submission report when the assigned id is not a
delivered one. -/
def pairViolations (delivered : List DeliveredSubmission)
    (a : AssignmentPair) : List PairViolation :=
  (match studentToSubmission delivered a.reviewer with
   | some own =>
       if own != "" && a.submissionId == own then
         [PairViolation.selfReview a.reviewer a.submissionId]
       else []
   | none => []) ++
  (if (submissionIdsOf delivered).contains a.submissionId then []
   else [PairViolation.unknownSubmission a.submissionId])

/-- Embeds `DistributorService._validate_manual`: missing-reviewer check
(sorted enumeration), then the combined self-review / unknown-submission
check, then the duplicate-reviewer check, and finally the list returned
verbatim. -/
def validate_manual (manual_list : List AssignmentPair)
    (delivered : List DeliveredSubmission) :
    Except DistErr (List AssignmentPair) :=
  let reviewers := manual_list.map (·.reviewer)
  let missing := List.insertionSort (· ≤ ·)
    ((studentsOf delivered).filter (fun st => !(reviewers.contains st)))
  if !missing.isEmpty then
    .error (.missingStudents missing)
  else
    let violations := (manual_list.map (pairViolations delivered)).flatten
    if !violations.isEmpty then
      .error (.invalidPairs violations)
    else if reviewers.dedup.length == reviewers.length then
      .ok manual_list
    else
      .error .duplicateReviewer

/-- Embeds `DistributorService._auto_distribute`: sorted reviewers, parallel
own-submission list, Sattolo-style shuffle driven by the `randrange` output
stream, fixed-point fallback rotation, and the final self-review assertion
(embedded as the `derangementFailed` error). -/
def auto_distribute (delivered : List DeliveredSubmission)
    (choices : List Nat) : Except DistErr (List AssignmentPair) :=
  let reviewers := sortedReviewers delivered
  let subs := reviewers.map (studentToSubmissionD delivered)
  let n := subs.length
  if n == 1 then .error .singleStudent
  else
    let shuffled := sattoloLoop subs (n - 1) choices
    let subs_perm := if hasFixedPoint shuffled subs then rotateOne shuffled
                     else shuffled
    let result := List.zipWith (fun r s => AssignmentPair.mk r s)
      reviewers subs_perm
    if result.all
        (fun ap => !(studentToSubmissionD delivered ap.reviewer
                      == ap.submissionId)) then
      .ok result
    else .error .derangementFailed

/-- Embeds `DistributorService.build_verified_assignments`; the contents of
the event store for the assignment and the `randrange` output stream are
explicit inputs. -/
def build_verified_assignments (payload : ReviewProcessCreate)
    (delivered : List DeliveredSubmission) (choices : List Nat) :
    Except DistErr (List AssignmentPair) :=
  if delivered.isEmpty then .error .noSubmissions
  else if payload.automatic_mode then auto_distribute delivered choices
  else if payload.lista_assegnazioni.isEmpty then .error .manualListRequired
  else validate_manual payload.lista_assegnazioni delivered

/-- Discriminator used to state that a distributor outcome is not the
combined self-review / unknown-submission error. -/
def isInvalidPairsError : Except DistErr (List AssignmentPair) → Bool
  | .error (.invalidPairs _) => true
  | _ => false

/-! ## Event store (src/app/database/mongo_events.py)

A stored document and an inbound payload are embedded as association lists
from field names to (string-valued) field contents; `update_one` with a
`$set` update merges the update fields into the matched document. -/

/-- A document / payload: an association list of fields. -/
abbrev EventDoc := List (String × String)

/-- Field access `doc.get(key)`: the value at the (unique) occurrence of
the field. -/
def getField (d : EventDoc) (k : String) : Option String :=
  match d with
  | [] => none
  | p :: rest => if p.1 == k then some p.2 else getField rest k

/-- Setting one field: replace the (unique) occurrence in place when
present, append the field otherwise. -/
def setField (d : EventDoc) (k v : String) : EventDoc :=
  match d with
  | [] => [(k, v)]
  | p :: rest => if p.1 == k then (k, v) :: rest else p :: setField rest k v

/-- A whole `$set` update: set every field of `update` on `d`, in order. -/
def applySet (d update : EventDoc) : EventDoc :=
  update.foldl (fun acc p => setField acc p.1 p.2) d

/-- Filter `{"assignmentId": a, "studentId": s}`. -/
def matchesKey (a s : String) (d : EventDoc) : Bool :=
  getField d "assignmentId" == some a && getField d "studentId" == some s

/-- Number of stored records for the key. -/
def countKey (store : List EventDoc) (a s : String) : Nat :=
  (store.filter (matchesKey a s)).length

/-- First stored record for the key, as found by `update_one`. -/
def findByKey (store : List EventDoc) (a s : String) : Option EventDoc :=
  store.find? (matchesKey a s)

/-- Replace the first record matching the key with `applySet` of the update
(the `update_one` write path); leaves the store unchanged when no record
matches. -/
def updateFirstByKey (store : List EventDoc) (a s : String)
    (update : EventDoc) : List EventDoc :=
  match store with
  | [] => []
  | d :: rest =>
      if matchesKey a s d then applySet d update :: rest
      else d :: updateFirstByKey rest a s update

/-- Embeds `MongoSubmissionDeliveredRepository.save_message`: validate the
key fields (`if not assignment_id or not student_id` — missing or empty is
rejected), build `update_doc = {**payload, "receivedAt": now}`, then upsert
on the `(assignmentId, studentId)` key, returning the new store and the
`created` flag (`upserted_id is not None`). -/
def save_message (store : List EventDoc) (payload : EventDoc)
    (now : String) : Except String (List EventDoc × Bool) :=
  match getField payload "assignmentId", getField payload "studentId" with
  | some a, some s =>
      if a == "" || s == "" then .error "ValidationError"
      else
        let update_doc := setField payload "receivedAt" now
        if (findByKey store a s).isSome then
          .ok (updateFirstByKey store a s update_doc, false)
        else
          .ok (store ++ [update_doc], true)
  | _, _ => .error "ValidationError"

/-! ## Event ingestor message handler
(src/app/services/consumer_service.py) -/

/-- The acknowledgement decision taken for one inbound message. -/
inductive MsgAction where
  | ack
  | nack (requeue : Bool)
deriving DecidableEq

/-- The constructor default `requeue_on_error: bool = False` of
`ReviewSubmissionConsumer.__init__`. -/
def defaultRequeueOnError : Bool := false

/-- Embeds the control flow of `ReviewSubmissionConsumer._on_message`:
`decoded = none` is a body that fails `json.loads` (handled by the
`json.JSONDecodeError` branch), and for a decodable body `saveResult`
is the outcome of `repo.save_message` (an exception is the generic
`except Exception` branch).  Every path returns an action, so the consumer
loop continues with the next message. -/
def on_message (requeue_on_error : Bool) (decoded : Option EventDoc)
    (saveResult : Except String Bool) : MsgAction :=
  match decoded with
  | none => .nack requeue_on_error
  | some _ =>
      match saveResult with
      | .ok _ => .ack
      | .error _ => .nack requeue_on_error

/-! ## Review ledger (src/app/services/review_service.py and
src/app/database/mongo_review.py) -/

/-- Review lifecycle state. -/
inductive Stato where
  | pending
  | complete
deriving DecidableEq

/-- A caller's role: a plain string or a collection of strings, as accepted
by `_is_teacher` / `_is_student`. -/
inductive Role where
  | scalar (value : String)
  | collection (values : List String)
deriving DecidableEq

/-- The resolved caller identity (`app.schemas.context.UserContext`). -/
structure UserContext where
  user_id : String
  role : Role
deriving DecidableEq

/-- Embeds `_is_teacher`. -/
def is_teacher : Role → Bool
  | .scalar v => v == "teacher"
  | .collection vs => vs.contains "teacher"

/-- Embeds `_is_student`. -/
def is_student : Role → Bool
  | .scalar v => v == "student"
  | .collection vs => vs.contains "student"

/-- A review draft as built by `ReviewService.start_process` (note: the
drafts carry no process identifier — see the `processId` discussion in the
claims about `start_process`). -/
structure ReviewDoc where
  assignmentId : String
  reviewerId : String
  submissionId : String
  createdAt : Nat
  deadline : Nat
  stato : Stato
  valutazione : List ValutazioneItem
deriving DecidableEq

/-- A stored review (a `ReviewDoc` plus the repo-generated `reviewId` and
the `updatedAt` stamp written by `update_scores`). -/
structure StoredReview where
  reviewId : String
  assignmentId : String
  reviewerId : String
  submissionId : String
  createdAt : Nat
  deadline : Nat
  stato : Stato
  valutazione : List ValutazioneItem
  updatedAt : Option Nat
deriving DecidableEq

/-- Zero-padding of `f"rv-{k:05d}"` for `k ≤ 99999`. -/
def pad5 (k : Nat) : String :=
  let s := toString k
  String.mk (List.replicate (5 - s.length) '0') ++ s

/-- Embeds `create_review_id`: the argument is the value produced by
`random.randint(0, 99999)`. -/
def create_review_id (k : Nat) : String :=
  "rv-" ++ pad5 k

/-- Embeds `ReviewService.start_process` up to the repository call: the
teacher gate, the `punteggio = -1` template, and one draft per pair with
`stato = pending` and `createdAt = now`. -/
def start_process (data : ReviewProcessCreate) (user : UserContext)
    (now : Nat) : Except String (List ReviewDoc) :=
  if is_teacher user.role then
    .ok (data.lista_assegnazioni.map (fun pair =>
      { assignmentId := data.assignmentId
        reviewerId := pair.reviewer
        submissionId := pair.submissionId
        createdAt := now
        deadline := data.deadline
        stato := .pending
        valutazione := data.rubrica.map
          (fun r => { criterio := r.criterio, punteggio := -1 }) }))
  else
    .error "PermissionError"

/-- Embeds `MongoReviewRepository.bulk_create_reviews`: each draft is given
a `reviewId` built from the next `random.randint(0, 99999)` output, all
prepared documents are appended to the store, and the generated ids are
returned. -/
def bulk_create_reviews (store : List StoredReview) (docs : List ReviewDoc)
    (rands : List Nat) : List StoredReview × List String :=
  let prepared := (docs.zip rands).map (fun dr =>
    { reviewId := create_review_id dr.2
      assignmentId := dr.1.assignmentId
      reviewerId := dr.1.reviewerId
      submissionId := dr.1.submissionId
      createdAt := dr.1.createdAt
      deadline := dr.1.deadline
      stato := dr.1.stato
      valutazione := dr.1.valutazione
      updatedAt := none : StoredReview })
  (store ++ prepared, (docs.zip rands).map (fun dr => create_review_id dr.2))

/-- Embeds `MongoReviewRepository.by_id_for_student`: first stored review
with the given `reviewId` owned by the student. -/
def by_id_for_student (store : List StoredReview) (review_id student_id : String) :
    Option StoredReview :=
  store.find? (fun r => r.reviewId == review_id && r.reviewerId == student_id)

/-- Embeds `MongoReviewRepository.update_scores`: `update_one` on the filter
`{"reviewId": review_id}` — the first matching review gets the new scores,
`stato = complete` and `updatedAt`; the boolean is `matched_count == 1`. -/
def update_scores (store : List StoredReview) (review_id : String)
    (valutazione : List ValutazioneItem) (now : Nat) :
    List StoredReview × Bool :=
  match store with
  | [] => ([], false)
  | r :: rest =>
      if r.reviewId == review_id then
        ({ r with valutazione := valutazione, stato := .complete,
                  updatedAt := some now } :: rest, true)
      else
        let res := update_scores rest review_id valutazione now
        (r :: res.1, res.2)

/-- Service-level `startProcess` acting on the review store: returns the
unchanged store and the permission error for a non-teacher caller, otherwise
bulk-creates the drafts and returns `data.assignmentId` (the value the
service returns as the process identifier). -/
def startProcessOp (store : List StoredReview) (data : ReviewProcessCreate)
    (user : UserContext) (now : Nat) (rands : List Nat) :
    List StoredReview × Except String String :=
  match start_process data user now with
  | .error e => (store, .error e)
  | .ok docs => ((bulk_create_reviews store docs rands).1, .ok data.assignmentId)

/-- Service-level `submit` acting on the review store: student gate,
ownership lookup via `by_id_for_student` (a miss returns `false` and leaves
the store unchanged), then `update_scores`. -/
def submitReviewOp (store : List StoredReview) (user : UserContext)
    (review_id : String) (valutazione : List ValutazioneItem) (now : Nat) :
    List StoredReview × Except String Bool :=
  if is_student user.role then
    match by_id_for_student store review_id user.user_id with
    | none => (store, .ok false)
    | some _ =>
        let res := update_scores store review_id valutazione now
        (res.1, .ok res.2)
  else
    (store, .error "PermissionError")

/-- The state-relevant operations of the review ledger; the read-only
operations (`listMine`, `getMine`, `listForAssignment`) perform no writes
and are embedded as identity on the store. -/
inductive LedgerOp where
  | startProcess (data : ReviewProcessCreate) (user : UserContext)
      (now : Nat) (rands : List Nat)
  | submit (user : UserContext) (review_id : String)
      (valutazione : List ValutazioneItem) (now : Nat)
  | listMine (user : UserContext) (stato : Option Stato)
  | getMine (user : UserContext) (review_id : String)
  | listForAssignment (user : UserContext) (assignmentId : String)

/-- Effect of a ledger operation on the review store. -/
def applyOp : LedgerOp → List StoredReview → List StoredReview
  | .startProcess data user now rands, s => (startProcessOp s data user now rands).1
  | .submit user rid val now, s => (submitReviewOp s user rid val now).1
  | .listMine _ _, s => s
  | .getMine _ _, s => s
  | .listForAssignment _ _, s => s

/-- Decidable equality of distributor outcomes, used to state concrete
evaluations. -/
instance {ε α : Type} [DecidableEq ε] [DecidableEq α] :
    DecidableEq (Except ε α) := fun x y =>
  match x, y with
  | .ok a, .ok b =>
      if h : a = b then isTrue (by rw [h]) else isFalse (by simp [h])
  | .error e, .error f =>
      if h : e = f then isTrue (by rw [h]) else isFalse (by simp [h])
  | .ok _, .error _ => isFalse (by simp)
  | .error _, .ok _ => isFalse (by simp)

/-! ## Claims about the automatic distribution shuffle -/

/-- C6 (counterexample): with duplicated submission values the claimed
fallback property fails.  For the list `["a", "a", "b"]` (n = 3 ≥ 2) and the
valid `randrange` outputs `[0, 0]`, the shuffle leaves a fixed point at
position 0, and the rotated list still has a fixed point (at position 1), so
rotating by one does not yield a fixed-point-free list. -/
theorem rotate_fallback_cex :
    ValidChoices 2 [0, 0] ∧
    2 ≤ (["a", "a", "b"] : List String).length ∧
    sattoloLoop ["a", "a", "b"] 2 [0, 0] = ["a", "b", "a"] ∧
    hasFixedPoint (sattoloLoop ["a", "a", "b"] 2 [0, 0]) ["a", "a", "b"] = true ∧
    hasFixedPoint (rotateOne (sattoloLoop ["a", "a", "b"] 2 [0, 0]))
      ["a", "a", "b"] = true :=
  ⟨ValidChoices.cons (by decide) (ValidChoices.cons (by decide) ValidChoices.nil),
   by decide, by decide, by decide, by decide⟩

/-- C6 (amended): for every list of n ≥ 2 pairwise-distinct submissions and
every permutation of it produced by the shuffle (any valid `randrange`
output stream), no position of the permuted list equals the original value
at that position, so the rotate-by-one fallback is never triggered. -/
theorem sattolo_shuffle_no_fixed_point (subs : List String)
    (choices : List Nat) (h2 : 2 ≤ subs.length) (hnd : subs.Nodup)
    (hv : ValidChoices (subs.length - 1) choices) :
    hasFixedPoint (sattoloLoop subs (subs.length - 1) choices) subs = false := by
  apply hasFixedPoint_eq_false
  intro p hp
  rw [sattoloLoop_length] at hp
  exact sattoloLoop_derangement subs choices h2 hnd hv p hp

/-- Witness for C6's amended theorem at the concrete list `["x", "y"]` with
`randrange` outputs `[0]`. -/
theorem sattolo_shuffle_no_fixed_point_witness :
    2 ≤ (["x", "y"] : List String).length ∧
    (["x", "y"] : List String).Nodup ∧
    ValidChoices ((["x", "y"] : List String).length - 1) [0] ∧
    hasFixedPoint
      (sattoloLoop ["x", "y"] ((["x", "y"] : List String).length - 1) [0])
      ["x", "y"] = false :=
  ⟨by decide, by decide,
   ValidChoices.cons (by decide) ValidChoices.nil,
   sattolo_shuffle_no_fixed_point ["x", "y"] [0] (by decide) (by decide)
     (ValidChoices.cons (by decide) ValidChoices.nil)⟩

/-! ## Support lemmas about the distributor's reviewer / submission maps -/

theorem studentToSubmission_of_mem {delivered : List DeliveredSubmission}
    {st : String} (h : st ∈ delivered.map (·.studentId)) :
    ∃ d, d ∈ delivered ∧ d.studentId = st ∧
      studentToSubmission delivered st = some d.submissionId := by
  obtain ⟨d0, hd0, hst⟩ := List.mem_map.mp h
  have hsome : (delivered.reverse.find? (fun d => d.studentId == st)).isSome := by
    rw [List.find?_isSome]
    exact ⟨d0, List.mem_reverse.mpr hd0, by simp [hst]⟩
  obtain ⟨d, hd⟩ := Option.isSome_iff_exists.mp hsome
  refine ⟨d, List.mem_reverse.mp (List.mem_of_find?_eq_some hd), ?_, ?_⟩
  · simpa using List.find?_some hd
  · unfold studentToSubmission
    rw [hd]
    rfl

theorem studentToSubmission_eq_of_nodup {delivered : List DeliveredSubmission}
    (hstu : (delivered.map (·.studentId)).Nodup) {d : DeliveredSubmission}
    (hd : d ∈ delivered) :
    studentToSubmission delivered d.studentId = some d.submissionId := by
  obtain ⟨d', hd', hst', heq⟩ := studentToSubmission_of_mem
    (List.mem_map_of_mem (·.studentId) hd)
  have hdd : d' = d := List.inj_on_of_nodup_map hstu hd' hd hst'
  rw [heq, hdd]

theorem studentToSubmissionD_eq_of_nodup {delivered : List DeliveredSubmission}
    (hstu : (delivered.map (·.studentId)).Nodup) {d : DeliveredSubmission}
    (hd : d ∈ delivered) :
    studentToSubmissionD delivered d.studentId = d.submissionId := by
  unfold studentToSubmissionD
  rw [studentToSubmission_eq_of_nodup hstu hd]
  rfl

theorem sortedReviewers_perm (delivered : List DeliveredSubmission) :
    (sortedReviewers delivered).Perm (studentsOf delivered) :=
  List.perm_insertionSort _ _

theorem mem_sortedReviewers {delivered : List DeliveredSubmission}
    {st : String} :
    st ∈ sortedReviewers delivered ↔ st ∈ delivered.map (·.studentId) := by
  rw [(sortedReviewers_perm delivered).mem_iff]
  exact List.mem_dedup

theorem sortedReviewers_nodup (delivered : List DeliveredSubmission) :
    (sortedReviewers delivered).Nodup :=
  ((sortedReviewers_perm delivered).nodup_iff).mpr (List.nodup_dedup _)

theorem sortedReviewers_length {delivered : List DeliveredSubmission}
    (hstu : (delivered.map (·.studentId)).Nodup) :
    (sortedReviewers delivered).length = delivered.length := by
  rw [(sortedReviewers_perm delivered).length_eq]
  unfold studentsOf
  rw [List.dedup_eq_self.mpr hstu, List.length_map]

theorem map_reviewer_zipWith : ∀ (a b : List String), a.length = b.length →
    (List.zipWith (fun r s => AssignmentPair.mk r s) a b).map (·.reviewer) = a
  | [], [], _ => rfl
  | [], _ :: _, h => by simp at h
  | _ :: _, [], h => by simp at h
  | x :: xs, y :: ys, h => by
      simp only [List.zipWith_cons_cons, List.map_cons]
      rw [map_reviewer_zipWith xs ys (by simpa using h)]

/-- C1: for every delivered-submission set with n ≥ 2 students (one
delivered submission each, submission ids pairwise distinct as submission
identity demands) and every valid `randrange` output stream,
`build_verified_assignments` in automatic mode returns exactly n pairs, its
reviewer set equals the delivered-student set, every assigned submission is
a delivered one, and no reviewer is assigned their own submission. -/
theorem auto_distribution_correct (payload : ReviewProcessCreate)
    (delivered : List DeliveredSubmission) (choices : List Nat)
    (hmode : payload.automatic_mode = true)
    (h2 : 2 ≤ delivered.length)
    (hstu : (delivered.map (·.studentId)).Nodup)
    (hsub : (delivered.map (·.submissionId)).Nodup)
    (hv : ValidChoices (delivered.length - 1) choices) :
    ∃ pairs,
      build_verified_assignments payload delivered choices = .ok pairs ∧
      pairs.length = delivered.length ∧
      (∀ st, st ∈ pairs.map (·.reviewer) ↔ st ∈ delivered.map (·.studentId)) ∧
      (∀ ap ∈ pairs, ap.submissionId ∈ delivered.map (·.submissionId)) ∧
      (∀ ap ∈ pairs, ∀ d ∈ delivered, d.studentId = ap.reviewer →
        d.submissionId ≠ ap.submissionId) := by
  set reviewers := sortedReviewers delivered with hrev
  set subs := reviewers.map (studentToSubmissionD delivered) with hsubs
  have hrevlen : reviewers.length = delivered.length :=
    sortedReviewers_length hstu
  have hslen : subs.length = delivered.length := by
    rw [hsubs, List.length_map, hrevlen]
  have hn2 : 2 ≤ subs.length := by omega
  have hentry : ∀ p, (hp : p < reviewers.length) →
      ∃ d, d ∈ delivered ∧ d.studentId = reviewers[p] ∧
        studentToSubmissionD delivered reviewers[p] = d.submissionId := by
    intro p hp
    have hm : reviewers[p] ∈ delivered.map (·.studentId) :=
      mem_sortedReviewers.mp (List.getElem_mem hp)
    obtain ⟨d, hd, hds, hsome⟩ := studentToSubmission_of_mem hm
    refine ⟨d, hd, hds, ?_⟩
    unfold studentToSubmissionD
    rw [hsome]
    rfl
  have hpd : PairwiseDistinct subs := by
    intro p q hp hq hne
    have hp' : p < reviewers.length := by
      rw [hsubs, List.length_map] at hp; exact hp
    have hq' : q < reviewers.length := by
      rw [hsubs, List.length_map] at hq; exact hq
    rw [hsubs, List.getElem?_map, List.getElem?_map,
        List.getElem?_eq_getElem hp', List.getElem?_eq_getElem hq']
    simp only [Option.map_some', ne_eq, Option.some.injEq]
    intro hcontra
    obtain ⟨dp, hdp, hdsp, hfp⟩ := hentry p hp'
    obtain ⟨dq, hdq, hdsq, hfq⟩ := hentry q hq'
    rw [hfp, hfq] at hcontra
    have hdd : dp = dq := List.inj_on_of_nodup_map hsub hdp hdq hcontra
    have hrr : reviewers[p] = reviewers[q] := by rw [← hdsp, ← hdsq, hdd]
    exact hne ((sortedReviewers_nodup delivered).getElem_inj_iff.mp hrr)
  have hv' : ValidChoices (subs.length - 1) choices := by
    rw [hslen]; exact hv
  set shuffled := sattoloLoop subs (subs.length - 1) choices with hshuf
  obtain ⟨hA, hB⟩ := sattoloLoop_spec hv' subs (by omega) (by omega) hpd
  have hShufLen : shuffled.length = subs.length := sattoloLoop_length _ _ _
  have hNoFix : hasFixedPoint shuffled subs = false := by
    apply hasFixedPoint_eq_false
    intro p hp
    exact hA p (by omega)
  set result := List.zipWith (fun r s => AssignmentPair.mk r s)
    reviewers shuffled with hresult
  have hreslen : result.length = delivered.length := by
    rw [hresult, List.length_zipWith, hShufLen]
    omega
  have hmemresult : ∀ ap ∈ result, ∃ p, p < subs.length ∧
      reviewers[p]? = some ap.reviewer ∧
      shuffled[p]? = some ap.submissionId := by
    intro ap hap
    obtain ⟨p, hp, hgp⟩ := List.mem_iff_getElem.mp hap
    have hsome : result[p]? = some ap := by
      rw [List.getElem?_eq_getElem hp, hgp]
    rw [hresult] at hsome
    obtain ⟨x, y, hx, hy, hxy⟩ := List.getElem?_zipWith_eq_some.mp hsome
    have hplen : p < subs.length := by
      obtain ⟨hlt, _⟩ := List.getElem?_eq_some.mp hy
      omega
    refine ⟨p, hplen, ?_, ?_⟩
    · rw [hx, ← hxy]
    · rw [hy, ← hxy]
  have hsubs? : ∀ p, p < subs.length → ∀ r, reviewers[p]? = some r →
      subs[p]? = some (studentToSubmissionD delivered r) := by
    intro p _ r hr
    rw [hsubs, List.getElem?_map, hr]
    rfl
  have hnoself : ∀ ap ∈ result,
      studentToSubmissionD delivered ap.reviewer ≠ ap.submissionId := by
    intro ap hap
    obtain ⟨p, hp, hr, hs⟩ := hmemresult ap hap
    have hsubp : subs[p]? = some (studentToSubmissionD delivered ap.reviewer) :=
      hsubs? p hp _ hr
    have hne := hA p (by omega)
    intro hcontra
    apply hne
    rw [hs, hsubp, hcontra]
  have hall : result.all
      (fun ap => !(studentToSubmissionD delivered ap.reviewer
                    == ap.submissionId)) = true := by
    rw [List.all_eq_true]
    intro ap hap
    simpa using hnoself ap hap
  have hdelne : delivered.isEmpty = false := by
    cases delivered with
    | nil => simp at h2
    | cons hd tl => rfl
  have hn1 : (subs.length == 1) = false := by
    rw [beq_eq_false_iff_ne]
    omega
  have hok : build_verified_assignments payload delivered choices =
      .ok result := by
    unfold build_verified_assignments auto_distribute
    rw [hdelne, hmode]
    simp only [Bool.false_eq_true, if_false, if_true, ← hrev, ← hsubs, hn1,
      ← hshuf, hNoFix, ← hresult, hall]
  refine ⟨result, hok, hreslen, ?_, ?_, ?_⟩
  · intro st
    rw [hresult, map_reviewer_zipWith reviewers shuffled (by omega)]
    exact mem_sortedReviewers
  · intro ap hap
    obtain ⟨p, hp, _, hs⟩ := hmemresult ap hap
    obtain ⟨q, hq, hqe⟩ := hB p (by omega)
    have hq' : q < reviewers.length := by omega
    have hrq : reviewers[q]? = some reviewers[q] :=
      List.getElem?_eq_getElem hq'
    have hsubq : subs[q]? =
        some (studentToSubmissionD delivered reviewers[q]) :=
      hsubs? q (by omega) _ hrq
    obtain ⟨d, hd, _, hfd⟩ := hentry q hq'
    have : ap.submissionId = d.submissionId := by
      have h1 : some ap.submissionId =
          some (studentToSubmissionD delivered reviewers[q]) := by
        rw [← hs, hqe, hsubq]
      rw [hfd] at h1
      exact Option.some_injective _ h1
    rw [this]
    exact List.mem_map_of_mem (·.submissionId) hd
  · intro ap hap d hd hds
    have hown : studentToSubmissionD delivered ap.reviewer =
        d.submissionId := by
      rw [← hds]
      exact studentToSubmissionD_eq_of_nodup hstu hd
    intro hcontra
    exact hnoself ap hap (by rw [hown, hcontra])

/-- Witness for C1 at a concrete two-student delivered set with the
`randrange` output stream `[0]`. -/
theorem auto_distribution_correct_witness :
    (⟨"A1", true, 0, [⟨"s-1", "SUB-1"⟩], [⟨"C1"⟩]⟩ :
        ReviewProcessCreate).automatic_mode = true ∧
    2 ≤ ([⟨"A1", "SUB-1", "s-1"⟩, ⟨"A1", "SUB-2", "s-2"⟩] :
        List DeliveredSubmission).length ∧
    (([⟨"A1", "SUB-1", "s-1"⟩, ⟨"A1", "SUB-2", "s-2"⟩] :
        List DeliveredSubmission).map (·.studentId)).Nodup ∧
    (([⟨"A1", "SUB-1", "s-1"⟩, ⟨"A1", "SUB-2", "s-2"⟩] :
        List DeliveredSubmission).map (·.submissionId)).Nodup ∧
    ValidChoices (([⟨"A1", "SUB-1", "s-1"⟩, ⟨"A1", "SUB-2", "s-2"⟩] :
        List DeliveredSubmission).length - 1) [0] ∧
    ∃ pairs,
      build_verified_assignments
        ⟨"A1", true, 0, [⟨"s-1", "SUB-1"⟩], [⟨"C1"⟩]⟩
        [⟨"A1", "SUB-1", "s-1"⟩, ⟨"A1", "SUB-2", "s-2"⟩] [0] = .ok pairs ∧
      pairs.length = ([⟨"A1", "SUB-1", "s-1"⟩, ⟨"A1", "SUB-2", "s-2"⟩] :
        List DeliveredSubmission).length ∧
      (∀ st, st ∈ pairs.map (·.reviewer) ↔
        st ∈ ([⟨"A1", "SUB-1", "s-1"⟩, ⟨"A1", "SUB-2", "s-2"⟩] :
          List DeliveredSubmission).map (·.studentId)) ∧
      (∀ ap ∈ pairs, ap.submissionId ∈
        ([⟨"A1", "SUB-1", "s-1"⟩, ⟨"A1", "SUB-2", "s-2"⟩] :
          List DeliveredSubmission).map (·.submissionId)) ∧
      (∀ ap ∈ pairs,
        ∀ d ∈ ([⟨"A1", "SUB-1", "s-1"⟩, ⟨"A1", "SUB-2", "s-2"⟩] :
          List DeliveredSubmission), d.studentId = ap.reviewer →
          d.submissionId ≠ ap.submissionId) :=
  ⟨rfl, by decide, by decide, by decide,
   ValidChoices.cons (by decide) ValidChoices.nil,
   auto_distribution_correct _ _ _ rfl (by decide) (by decide) (by decide)
     (ValidChoices.cons (by decide) ValidChoices.nil)⟩

/-! ## Claims about manual validation -/

/-- Let-expanded form of `validate_manual`, used to unfold it in proofs. -/
theorem validate_manual_eq (manual_list : List AssignmentPair)
    (delivered : List DeliveredSubmission) :
    validate_manual manual_list delivered =
    (if !(List.insertionSort (· ≤ ·) ((studentsOf delivered).filter
          (fun st => !((manual_list.map (·.reviewer)).contains st)))).isEmpty
     then
       .error (.missingStudents (List.insertionSort (· ≤ ·)
         ((studentsOf delivered).filter
           (fun st => !((manual_list.map (·.reviewer)).contains st)))))
     else if !((manual_list.map (pairViolations delivered)).flatten).isEmpty
     then
       .error (.invalidPairs ((manual_list.map (pairViolations delivered)).flatten))
     else if (manual_list.map (·.reviewer)).dedup.length ==
         (manual_list.map (·.reviewer)).length then
       .ok manual_list
     else
       .error .duplicateReviewer) := rfl

/-- C4 (counterexample): the manual list pairing the extra reviewer `"x"` —
who has no delivered submission — with the delivered submission `"SUB-1"`
passes every validation, so the accepted reviewer set strictly contains the
delivered-student set. -/
theorem manual_accept_extra_reviewer_cex :
    build_verified_assignments
      ⟨"A1", false, 0,
        [⟨"s-1", "SUB-2"⟩, ⟨"s-2", "SUB-1"⟩, ⟨"x", "SUB-1"⟩], [⟨"C1"⟩]⟩
      [⟨"A1", "SUB-1", "s-1"⟩, ⟨"A1", "SUB-2", "s-2"⟩] [] =
      .ok [⟨"s-1", "SUB-2"⟩, ⟨"s-2", "SUB-1"⟩, ⟨"x", "SUB-1"⟩] ∧
    "x" ∈ ([⟨"s-1", "SUB-2"⟩, ⟨"s-2", "SUB-1"⟩, ⟨"x", "SUB-1"⟩] :
      List AssignmentPair).map (·.reviewer) ∧
    "x" ∉ ([⟨"A1", "SUB-1", "s-1"⟩, ⟨"A1", "SUB-2", "s-2"⟩] :
      List DeliveredSubmission).map (·.studentId) :=
  ⟨by decide, by decide, by decide⟩

/-- C4 (amended): every manual assignment list accepted by
`build_verified_assignments` is returned verbatim and its reviewer set
contains every student with a delivered submission; reviewers outside the
delivered-student set are not rejected. -/
theorem manual_accept_covers_delivered (payload : ReviewProcessCreate)
    (delivered : List DeliveredSubmission) (choices : List Nat)
    (pairs : List AssignmentPair)
    (hmode : payload.automatic_mode = false)
    (hok : build_verified_assignments payload delivered choices = .ok pairs) :
    pairs = payload.lista_assegnazioni ∧
    ∀ d ∈ delivered, d.studentId ∈ pairs.map (·.reviewer) := by
  unfold build_verified_assignments at hok
  rw [hmode] at hok
  cases hD : delivered.isEmpty with
  | true => rw [hD] at hok; simp at hok
  | false =>
  rw [hD] at hok
  simp only [Bool.false_eq_true, if_false] at hok
  cases hL : payload.lista_assegnazioni.isEmpty with
  | true => rw [hL] at hok; simp at hok
  | false =>
  rw [hL] at hok
  simp only [Bool.false_eq_true, if_false] at hok
  rw [validate_manual_eq] at hok
  set reviewers := payload.lista_assegnazioni.map (·.reviewer) with hrevs
  set missing := List.insertionSort (· ≤ ·)
    ((studentsOf delivered).filter (fun st => !(reviewers.contains st)))
    with hmiss
  cases hM : missing.isEmpty with
  | false => rw [hM] at hok; simp at hok
  | true =>
  rw [hM] at hok
  simp only [Bool.not_true, Bool.false_eq_true, if_false] at hok
  set violations :=
    (payload.lista_assegnazioni.map (pairViolations delivered)).flatten
    with hviol
  cases hV : violations.isEmpty with
  | false => rw [hV] at hok; simp at hok
  | true =>
  rw [hV] at hok
  simp only [Bool.not_true, Bool.false_eq_true, if_false] at hok
  cases hDup : reviewers.dedup.length == reviewers.length with
  | false => rw [hDup] at hok; simp at hok
  | true =>
  rw [hDup] at hok
  simp only [if_true, Except.ok.injEq] at hok
  constructor
  · exact hok.symm
  · intro d hd
    have hfilter :
        (studentsOf delivered).filter (fun st => !(reviewers.contains st))
          = [] := by
      have hperm := List.perm_insertionSort (· ≤ ·)
        ((studentsOf delivered).filter (fun st => !(reviewers.contains st)))
      rw [← hmiss, List.isEmpty_iff.mp hM] at hperm
      exact (hperm.symm).eq_nil
    have hmem : d.studentId ∈ studentsOf delivered := by
      unfold studentsOf
      exact List.mem_dedup.mpr (List.mem_map_of_mem (·.studentId) hd)
    have := List.filter_eq_nil_iff.mp hfilter d.studentId hmem
    simp only [Bool.not_eq_true', Bool.not_eq_false] at this
    rw [← hok, ← hrevs]
    simpa using this

/-- Witness for C4's amended theorem at a concrete accepted manual list. -/
theorem manual_accept_covers_delivered_witness :
    (⟨"A1", false, 0, [⟨"s-1", "SUB-2"⟩, ⟨"s-2", "SUB-1"⟩], [⟨"C1"⟩]⟩ :
      ReviewProcessCreate).automatic_mode = false ∧
    build_verified_assignments
      ⟨"A1", false, 0, [⟨"s-1", "SUB-2"⟩, ⟨"s-2", "SUB-1"⟩], [⟨"C1"⟩]⟩
      [⟨"A1", "SUB-1", "s-1"⟩, ⟨"A1", "SUB-2", "s-2"⟩] [] =
      .ok [⟨"s-1", "SUB-2"⟩, ⟨"s-2", "SUB-1"⟩] ∧
    ([⟨"s-1", "SUB-2"⟩, ⟨"s-2", "SUB-1"⟩] : List AssignmentPair) =
      (⟨"A1", false, 0, [⟨"s-1", "SUB-2"⟩, ⟨"s-2", "SUB-1"⟩], [⟨"C1"⟩]⟩ :
        ReviewProcessCreate).lista_assegnazioni ∧
    ∀ d ∈ ([⟨"A1", "SUB-1", "s-1"⟩, ⟨"A1", "SUB-2", "s-2"⟩] :
      List DeliveredSubmission), d.studentId ∈
      ([⟨"s-1", "SUB-2"⟩, ⟨"s-2", "SUB-1"⟩] : List AssignmentPair).map
        (·.reviewer) :=
  ⟨rfl, by decide,
   (manual_accept_covers_delivered
     ⟨"A1", false, 0, [⟨"s-1", "SUB-2"⟩, ⟨"s-2", "SUB-1"⟩], [⟨"C1"⟩]⟩
     [⟨"A1", "SUB-1", "s-1"⟩, ⟨"A1", "SUB-2", "s-2"⟩] []
     [⟨"s-1", "SUB-2"⟩, ⟨"s-2", "SUB-1"⟩] rfl (by decide)).1,
   (manual_accept_covers_delivered
     ⟨"A1", false, 0, [⟨"s-1", "SUB-2"⟩, ⟨"s-2", "SUB-1"⟩], [⟨"C1"⟩]⟩
     [⟨"A1", "SUB-1", "s-1"⟩, ⟨"A1", "SUB-2", "s-2"⟩] []
     [⟨"s-1", "SUB-2"⟩, ⟨"s-2", "SUB-1"⟩] rfl (by decide)).2⟩

/-- C5 (counterexample): with the delivered set `{s-1 ↦ SUB-1, s-2 ↦ SUB-2}`
and the manual list `[(s-1, SUB-1)]` — which contains a self-review pair —
validation fails with the missing-students error for `s-2`, not with the
combined error reporting the self-review violation, because the
missing-reviewer check runs first. -/
theorem manual_combined_error_cex :
    build_verified_assignments
      ⟨"A1", false, 0, [⟨"s-1", "SUB-1"⟩], [⟨"C1"⟩]⟩
      [⟨"A1", "SUB-1", "s-1"⟩, ⟨"A1", "SUB-2", "s-2"⟩] [] =
      .error (.missingStudents ["s-2"]) ∧
    pairViolations [⟨"A1", "SUB-1", "s-1"⟩, ⟨"A1", "SUB-2", "s-2"⟩]
      ⟨"s-1", "SUB-1"⟩ = [.selfReview "s-1" "SUB-1"] ∧
    isInvalidPairsError (build_verified_assignments
      ⟨"A1", false, 0, [⟨"s-1", "SUB-1"⟩], [⟨"C1"⟩]⟩
      [⟨"A1", "SUB-1", "s-1"⟩, ⟨"A1", "SUB-2", "s-2"⟩] []) = false :=
  ⟨by decide, by decide, by decide⟩

/-- C5 (amended): in manual mode, when at least one delivered student is
missing from the reviewer set the result is the missing-students error whose
payload enumerates exactly those students, sorted; when no delivered student
is missing and some pair is a self-review or references an unknown
submission, the result is the single combined error whose payload reports
every self-review violation and every unknown-submission violation. -/
theorem manual_error_reporting (payload : ReviewProcessCreate)
    (delivered : List DeliveredSubmission) (choices : List Nat)
    (hmode : payload.automatic_mode = false)
    (hdel : delivered ≠ [])
    (hlist : payload.lista_assegnazioni ≠ []) :
    (let reviewers := payload.lista_assegnazioni.map (·.reviewer)
     let missing := List.insertionSort (· ≤ ·)
       ((studentsOf delivered).filter (fun st => !(reviewers.contains st)))
     let violations :=
       (payload.lista_assegnazioni.map (pairViolations delivered)).flatten
     (missing ≠ [] →
        build_verified_assignments payload delivered choices =
          .error (.missingStudents missing) ∧
        missing.Sorted (· ≤ ·) ∧
        (∀ st, st ∈ missing ↔
          st ∈ delivered.map (·.studentId) ∧ st ∉ reviewers)) ∧
     (missing = [] → violations ≠ [] →
        build_verified_assignments payload delivered choices =
          .error (.invalidPairs violations) ∧
        (∀ a ∈ payload.lista_assegnazioni,
          studentToSubmission delivered a.reviewer = some a.submissionId →
          a.submissionId ≠ "" →
          PairViolation.selfReview a.reviewer a.submissionId ∈ violations) ∧
        (∀ a ∈ payload.lista_assegnazioni,
          a.submissionId ∉ delivered.map (·.submissionId) →
          PairViolation.unknownSubmission a.submissionId ∈ violations))) := by
  intro reviewers missing violations
  have hD : delivered.isEmpty = false := by
    cases delivered with
    | nil => exact absurd rfl hdel
    | cons hd tl => rfl
  have hL : payload.lista_assegnazioni.isEmpty = false := by
    cases hL' : payload.lista_assegnazioni with
    | nil => exact absurd hL' hlist
    | cons hd tl => rfl
  have hbuild : build_verified_assignments payload delivered choices =
      validate_manual payload.lista_assegnazioni delivered := by
    unfold build_verified_assignments
    rw [hD, hmode, hL]
    simp only [Bool.false_eq_true, if_false]
  constructor
  · intro hm
    have hMe : missing.isEmpty = false := by
      cases hmc : missing with
      | nil => exact absurd hmc hm
      | cons hd tl => rfl
    refine ⟨?_, ?_, ?_⟩
    · rw [hbuild, validate_manual_eq]
      rw [show (List.insertionSort (· ≤ ·) ((studentsOf delivered).filter
        (fun st => !((payload.lista_assegnazioni.map
          (·.reviewer)).contains st)))) = missing from rfl, hMe]
      rfl
    · exact List.sorted_insertionSort _ _
    · intro st
      have hperm := List.perm_insertionSort (· ≤ ·)
        ((studentsOf delivered).filter (fun s => !(reviewers.contains s)))
      rw [show missing = List.insertionSort (· ≤ ·)
        ((studentsOf delivered).filter (fun s => !(reviewers.contains s)))
        from rfl]
      rw [hperm.mem_iff, List.mem_filter]
      unfold studentsOf
      rw [List.mem_dedup]
      simp [List.contains_iff_exists_mem_beq]
  · intro hm hviol
    have hMe : missing.isEmpty = true := by rw [hm]; rfl
    have hVe : violations.isEmpty = false := by
      cases hvc : violations with
      | nil => exact absurd hvc hviol
      | cons hd tl => rfl
    have hresult : build_verified_assignments payload delivered choices =
        .error (.invalidPairs violations) := by
      rw [hbuild, validate_manual_eq]
      rw [show (List.insertionSort (· ≤ ·) ((studentsOf delivered).filter
        (fun st => !((payload.lista_assegnazioni.map
          (·.reviewer)).contains st)))) = missing from rfl, hMe]
      rw [show ((payload.lista_assegnazioni.map
        (pairViolations delivered)).flatten) = violations from rfl, hVe]
      rfl
    refine ⟨hresult, ?_, ?_⟩
    · intro a ha hown hne
      have hmemv : PairViolation.selfReview a.reviewer a.submissionId ∈
          pairViolations delivered a := by
        unfold pairViolations
        rw [hown]
        simp [hne]
      exact List.mem_flatten_of_mem
        (List.mem_map_of_mem (pairViolations delivered) ha) hmemv
    · intro a ha hnot
      have hcont : (submissionIdsOf delivered).contains a.submissionId
          = false := by
        cases hc : (submissionIdsOf delivered).contains a.submissionId with
        | false => rfl
        | true =>
            exfalso
            rw [List.contains_iff_exists_mem_beq] at hc
            obtain ⟨x, hx, hxe⟩ := hc
            rw [beq_iff_eq] at hxe
            apply hnot
            rw [hxe]
            exact hx
      have hmemv : PairViolation.unknownSubmission a.submissionId ∈
          pairViolations delivered a := by
        unfold pairViolations
        rw [hcont]
        simp only [Bool.false_eq_true, if_false]
        exact List.mem_append_right _ (List.mem_singleton.mpr rfl)
      exact List.mem_flatten_of_mem
        (List.mem_map_of_mem (pairViolations delivered) ha) hmemv

/-- Witness for C5's amended theorem: the missing-students branch at the
concrete input of the counterexample. -/
theorem manual_error_reporting_witness :
    (⟨"A1", false, 0, [⟨"s-1", "SUB-1"⟩], [⟨"C1"⟩]⟩ :
      ReviewProcessCreate).automatic_mode = false ∧
    ([⟨"A1", "SUB-1", "s-1"⟩, ⟨"A1", "SUB-2", "s-2"⟩] :
      List DeliveredSubmission) ≠ [] ∧
    (⟨"A1", false, 0, [⟨"s-1", "SUB-1"⟩], [⟨"C1"⟩]⟩ :
      ReviewProcessCreate).lista_assegnazioni ≠ [] ∧
    build_verified_assignments
      ⟨"A1", false, 0, [⟨"s-1", "SUB-1"⟩], [⟨"C1"⟩]⟩
      [⟨"A1", "SUB-1", "s-1"⟩, ⟨"A1", "SUB-2", "s-2"⟩] [] =
      .error (.missingStudents ["s-2"]) :=
  ⟨rfl, by decide, by decide,
   ((manual_error_reporting _ _ [] rfl (by decide) (by decide)).1
     (by decide)).1⟩

/-! ## Event store support lemmas -/

theorem getField_setField_same (d : EventDoc) (k v : String) :
    getField (setField d k v) k = some v := by
  induction d with
  | nil => simp [setField, getField]
  | cons p rest ih =>
      unfold setField
      by_cases h : p.1 == k
      · rw [if_pos h]
        simp [getField]
      · rw [if_neg h]
        unfold getField
        rw [if_neg h]
        exact ih

theorem getField_setField_other (d : EventDoc) (k v k' : String)
    (h : k' ≠ k) :
    getField (setField d k v) k' = getField d k' := by
  have hkk : (k == k') = false := by
    rw [beq_eq_false_iff_ne]
    exact fun hc => h hc.symm
  induction d with
  | nil => simp [setField, getField, hkk]
  | cons p rest ih =>
      unfold setField
      by_cases hp : p.1 == k
      · rw [if_pos hp]
        rw [beq_iff_eq] at hp
        have hp' : (p.1 == k') = false := by
          rw [beq_eq_false_iff_ne, hp]
          exact fun hc => h hc.symm
        show (if (k == k') = true then some v else getField rest k') =
          if (p.1 == k') = true then some p.2 else getField rest k'
        rw [if_neg (by simp [hkk]), if_neg (by simp [hp'])]
      · rw [if_neg hp]
        unfold getField
        by_cases hp' : p.1 == k'
        · rw [if_pos hp', if_pos hp']
        · rw [if_neg hp', if_neg hp']
          exact ih

theorem getField_eq_none_of_not_mem (u : EventDoc) (k : String)
    (h : k ∉ u.map (·.1)) : getField u k = none := by
  induction u with
  | nil => rfl
  | cons p rest ih =>
      simp only [List.map_cons, List.mem_cons, not_or] at h
      unfold getField
      rw [if_neg]
      · exact ih h.2
      · rw [beq_iff_eq]
        exact fun hc => h.1 hc.symm

theorem mem_keys_setField {d : EventDoc} {k v x : String}
    (h : x ∈ (setField d k v).map (·.1)) :
    x = k ∨ x ∈ d.map (·.1) := by
  induction d with
  | nil =>
      unfold setField at h
      simpa using h
  | cons p rest ih =>
      unfold setField at h
      by_cases hp : p.1 == k
      · rw [if_pos hp] at h
        simp only [List.map_cons, List.mem_cons] at h ⊢
        rcases h with h | h
        · exact Or.inl h
        · exact Or.inr (Or.inr h)
      · rw [if_neg hp] at h
        simp only [List.map_cons, List.mem_cons] at h ⊢
        rcases h with h | h
        · exact Or.inr (Or.inl h)
        · rcases ih h with h' | h'
          · exact Or.inl h'
          · exact Or.inr (Or.inr h')

theorem keys_setField_nodup {d : EventDoc} (k v : String)
    (h : (d.map (·.1)).Nodup) : ((setField d k v).map (·.1)).Nodup := by
  induction d with
  | nil =>
      unfold setField
      simp
  | cons p rest ih =>
      unfold setField
      simp only [List.map_cons, List.nodup_cons] at h
      by_cases hp : p.1 == k
      · rw [if_pos hp]
        simp only [List.map_cons, List.nodup_cons]
        rw [beq_iff_eq] at hp
        exact ⟨hp ▸ h.1, h.2⟩
      · rw [if_neg hp]
        simp only [List.map_cons, List.nodup_cons]
        refine ⟨?_, ih h.2⟩
        intro hc
        rcases mem_keys_setField hc with h' | h'
        · rw [beq_iff_eq] at hp
          exact hp h'
        · exact h.1 h'

theorem getField_applySet (u : EventDoc) :
    ∀ (d : EventDoc), (u.map (·.1)).Nodup → ∀ k,
      getField (applySet d u) k =
        (match getField u k with
         | some v => some v
         | none => getField d k) := by
  induction u with
  | nil =>
      intro d _ k
      rfl
  | cons p u' ih =>
      intro d hnodup k
      simp only [List.map_cons, List.nodup_cons] at hnodup
      have happ : applySet d (p :: u') = applySet (setField d p.1 p.2) u' := rfl
      rw [happ, ih (setField d p.1 p.2) hnodup.2 k]
      by_cases hk : p.1 == k
      · have hkeq : p.1 = k := by rwa [beq_iff_eq] at hk
        have hnone : getField u' k = none :=
          getField_eq_none_of_not_mem u' k (hkeq ▸ hnodup.1)
        have hhead : getField (p :: u') k = some p.2 := by
          unfold getField
          rw [if_pos hk]
        rw [hnone, hhead]
        show getField (setField d p.1 p.2) k = some p.2
        rw [← hkeq]
        exact getField_setField_same d p.1 p.2
      · have hhead : getField (p :: u') k = getField u' k := by
          show (if (p.1 == k) = true then some p.2 else getField u' k) =
            getField u' k
          rw [if_neg hk]
        rw [hhead]
        cases hu : getField u' k with
        | some v => rfl
        | none =>
            show getField (setField d p.1 p.2) k = getField d k
            apply getField_setField_other
            rw [beq_iff_eq] at hk
            exact fun hc => hk hc.symm

theorem matchesKey_applySet (d u : EventDoc) (a s : String)
    (hnodup : (u.map (·.1)).Nodup)
    (hA : getField u "assignmentId" = some a)
    (hS : getField u "studentId" = some s) :
    matchesKey a s (applySet d u) = true := by
  unfold matchesKey
  rw [getField_applySet u d hnodup, getField_applySet u d hnodup, hA, hS]
  simp

theorem countKey_append (x y : List EventDoc) (a s : String) :
    countKey (x ++ y) a s = countKey x a s + countKey y a s := by
  unfold countKey
  rw [List.filter_append, List.length_append]

theorem countKey_eq_zero_iff (store : List EventDoc) (a s : String) :
    countKey store a s = 0 ↔ ∀ d ∈ store, matchesKey a s d = false := by
  unfold countKey
  rw [List.length_eq_zero, List.filter_eq_nil_iff]
  constructor
  · intro h d hd
    simpa using h d hd
  · intro h d hd
    simp [h d hd]

theorem findByKey_eq_none (store : List EventDoc) (a s : String)
    (h : countKey store a s = 0) : findByKey store a s = none := by
  unfold findByKey
  rw [List.find?_eq_none]
  intro d hd
  simp [(countKey_eq_zero_iff store a s).mp h d hd]

theorem updateFirst_countKey (store : List EventDoc) (a s : String)
    (u : EventDoc)
    (hmatch : ∀ d, matchesKey a s d = true →
      matchesKey a s (applySet d u) = true) :
    countKey (updateFirstByKey store a s u) a s = countKey store a s := by
  induction store with
  | nil => rfl
  | cons d rest ih =>
      unfold updateFirstByKey
      by_cases hd : matchesKey a s d
      · rw [if_pos hd]
        unfold countKey
        rw [List.filter_cons, List.filter_cons, hd, hmatch d hd]
        simp
      · rw [if_neg hd]
        unfold countKey at ih ⊢
        rw [List.filter_cons, List.filter_cons]
        simp only [Bool.not_eq_true] at hd
        rw [hd]
        simpa using ih

theorem updateFirst_findByKey (store : List EventDoc) (a s : String)
    (u : EventDoc)
    (hmatch : ∀ d, matchesKey a s d = true →
      matchesKey a s (applySet d u) = true) :
    findByKey (updateFirstByKey store a s u) a s =
      (findByKey store a s).map (fun d => applySet d u) := by
  induction store with
  | nil => rfl
  | cons d rest ih =>
      unfold updateFirstByKey
      by_cases hd : matchesKey a s d
      · rw [if_pos hd]
        unfold findByKey
        rw [List.find?_cons_of_pos _ (hmatch d hd),
            List.find?_cons_of_pos _ hd]
        rfl
      · rw [if_neg hd]
        unfold findByKey at ih ⊢
        simp only [Bool.not_eq_true] at hd
        rw [List.find?_cons_of_neg _ (by simp [hd]),
            List.find?_cons_of_neg _ (by simp [hd])]
        exact ih

theorem save_message_of_keys (store : List EventDoc) (payload : EventDoc)
    (now a s : String)
    (hA : getField payload "assignmentId" = some a)
    (hS : getField payload "studentId" = some s) :
    save_message store payload now =
    (if a == "" || s == "" then .error "ValidationError"
     else if (findByKey store a s).isSome then
       .ok (updateFirstByKey store a s (setField payload "receivedAt" now),
            false)
     else
       .ok (store ++ [setField payload "receivedAt" now], true)) := by
  unfold save_message
  rw [hA, hS]

theorem find?_append_singleton (pre : List EventDoc) (u : EventDoc)
    (a s : String)
    (hpre : ∀ d ∈ pre, matchesKey a s d = false)
    (hu : matchesKey a s u = true) :
    List.find? (matchesKey a s) (pre ++ [u]) = some u := by
  induction pre with
  | nil => simp [List.find?_cons, hu]
  | cons d rest ih =>
      have hd := hpre d (List.mem_cons_self _ _)
      rw [List.cons_append, List.find?_cons_of_neg]
      · exact ih (fun x hx => hpre x (List.mem_cons_of_mem _ hx))
      · simp [hd]

/-- C2: saving two valid events with the same `(assignmentId, studentId)`
key into a store holding no record for that key leaves exactly one record
for the key; the first save reports `created = true`, the second reports
`created = false` and merges every field of the second event (plus the new
`receivedAt` stamp) over the stored record. -/
theorem event_store_idempotent (store : List EventDoc) (e1 e2 : EventDoc)
    (a s now1 now2 : String)
    (hA1 : getField e1 "assignmentId" = some a)
    (hS1 : getField e1 "studentId" = some s)
    (hA2 : getField e2 "assignmentId" = some a)
    (hS2 : getField e2 "studentId" = some s)
    (hA : a ≠ "") (hS : s ≠ "")
    (hk2 : (e2.map (·.1)).Nodup)
    (hfresh : countKey store a s = 0) :
    ∃ store1 store2,
      save_message store e1 now1 = .ok (store1, true) ∧
      countKey store1 a s = 1 ∧
      save_message store1 e2 now2 = .ok (store2, false) ∧
      countKey store2 a s = 1 ∧
      ∃ d, findByKey store2 a s = some d ∧
        (∀ f v, f ≠ "receivedAt" → getField e2 f = some v →
          getField d f = some v) ∧
        getField d "receivedAt" = some now2 := by
  have hBeqA : (a == "") = false := beq_eq_false_iff_ne.mpr hA
  have hBeqS : (s == "") = false := beq_eq_false_iff_ne.mpr hS
  have hcond : (a == "" || s == "") = false := by rw [hBeqA, hBeqS]; rfl
  set u1 := setField e1 "receivedAt" now1 with hu1
  set u2 := setField e2 "receivedAt" now2 with hu2
  have hA1' : getField u1 "assignmentId" = some a := by
    rw [hu1, getField_setField_other _ _ _ _ (by decide : "assignmentId" ≠ "receivedAt")]
    exact hA1
  have hS1' : getField u1 "studentId" = some s := by
    rw [hu1, getField_setField_other _ _ _ _ (by decide : "studentId" ≠ "receivedAt")]
    exact hS1
  have hA2' : getField u2 "assignmentId" = some a := by
    rw [hu2, getField_setField_other _ _ _ _ (by decide : "assignmentId" ≠ "receivedAt")]
    exact hA2
  have hS2' : getField u2 "studentId" = some s := by
    rw [hu2, getField_setField_other _ _ _ _ (by decide : "studentId" ≠ "receivedAt")]
    exact hS2
  have hmK1 : matchesKey a s u1 = true := by
    unfold matchesKey
    rw [hA1', hS1']
    simp
  have hsave1 : save_message store e1 now1 = .ok (store ++ [u1], true) := by
    rw [save_message_of_keys store e1 now1 a s hA1 hS1, hcond,
        findByKey_eq_none store a s hfresh]
    rfl
  set store1 := store ++ [u1] with hstore1
  have hcount1 : countKey store1 a s = 1 := by
    rw [hstore1, countKey_append, hfresh]
    unfold countKey
    rw [List.filter_cons]
    simp [hmK1]
  have hfind1 : findByKey store1 a s = some u1 := by
    rw [hstore1]
    exact find?_append_singleton store u1 a s
      ((countKey_eq_zero_iff store a s).mp hfresh) hmK1
  have hnodupU2 : (u2.map (·.1)).Nodup := by
    rw [hu2]
    exact keys_setField_nodup _ _ hk2
  have hmatch2 : ∀ d, matchesKey a s d = true →
      matchesKey a s (applySet d u2) = true :=
    fun d _ => matchesKey_applySet d u2 a s hnodupU2 hA2' hS2'
  have hsave2 : save_message store1 e2 now2 =
      .ok (updateFirstByKey store1 a s u2, false) := by
    rw [save_message_of_keys store1 e2 now2 a s hA2 hS2, hcond, hfind1]
    rfl
  set store2 := updateFirstByKey store1 a s u2 with hstore2
  have hcount2 : countKey store2 a s = 1 := by
    rw [hstore2, updateFirst_countKey store1 a s u2 hmatch2, hcount1]
  have hfind2 : findByKey store2 a s = some (applySet u1 u2) := by
    rw [hstore2, updateFirst_findByKey store1 a s u2 hmatch2, hfind1]
    rfl
  refine ⟨store1, store2, hsave1, hcount1, hsave2, hcount2,
    applySet u1 u2, hfind2, ?_, ?_⟩
  · intro f v hf hv
    rw [getField_applySet u2 u1 hnodupU2 f, hu2,
        getField_setField_other _ _ _ _ hf, hv]
  · rw [getField_applySet u2 u1 hnodupU2 "receivedAt", hu2,
        getField_setField_same]

/-- Witness for C2 at a concrete pair of events sharing the key
`("A1", "s-1")`, saved into an empty store. -/
theorem event_store_idempotent_witness :
    getField [("assignmentId", "A1"), ("studentId", "s-1"),
      ("submissionId", "SUB-1")] "assignmentId" = some "A1" ∧
    getField [("assignmentId", "A1"), ("studentId", "s-1"),
      ("submissionId", "SUB-1")] "studentId" = some "s-1" ∧
    getField [("assignmentId", "A1"), ("studentId", "s-1"),
      ("submissionId", "SUB-9")] "assignmentId" = some "A1" ∧
    getField [("assignmentId", "A1"), ("studentId", "s-1"),
      ("submissionId", "SUB-9")] "studentId" = some "s-1" ∧
    ("A1" : String) ≠ "" ∧ ("s-1" : String) ≠ "" ∧
    (([("assignmentId", "A1"), ("studentId", "s-1"),
      ("submissionId", "SUB-9")] : EventDoc).map (·.1)).Nodup ∧
    countKey [] "A1" "s-1" = 0 ∧
    ∃ store1 store2,
      save_message [] [("assignmentId", "A1"), ("studentId", "s-1"),
        ("submissionId", "SUB-1")] "t1" = .ok (store1, true) ∧
      countKey store1 "A1" "s-1" = 1 ∧
      save_message store1 [("assignmentId", "A1"), ("studentId", "s-1"),
        ("submissionId", "SUB-9")] "t2" = .ok (store2, false) ∧
      countKey store2 "A1" "s-1" = 1 ∧
      ∃ d, findByKey store2 "A1" "s-1" = some d ∧
        (∀ f v, f ≠ "receivedAt" →
          getField [("assignmentId", "A1"), ("studentId", "s-1"),
            ("submissionId", "SUB-9")] f = some v →
          getField d f = some v) ∧
        getField d "receivedAt" = some "t2" :=
  ⟨by decide, by decide, by decide, by decide, by decide, by decide,
   by decide, rfl,
   event_store_idempotent [] _ _ "A1" "s-1" "t1" "t2"
     (by decide) (by decide) (by decide) (by decide) (by decide) (by decide)
     (by decide) rfl⟩

/-! ## Review ledger support lemmas -/

theorem update_scores_length (store : List StoredReview) (rid : String)
    (val : List ValutazioneItem) (now : Nat) :
    (update_scores store rid val now).1.length = store.length := by
  induction store with
  | nil => rfl
  | cons r rest ih =>
      unfold update_scores
      by_cases h : r.reviewId == rid
      · rw [if_pos h]
        simp
      · rw [if_neg h]
        simpa using ih

theorem update_scores_stato (store : List StoredReview) (rid : String)
    (val : List ValutazioneItem) (now : Nat) :
    ∀ (k : Nat) (r' : StoredReview),
      (update_scores store rid val now).1[k]? = some r' →
      r'.stato = .complete ∨ store[k]? = some r' := by
  induction store with
  | nil => intro k r' h; simp [update_scores] at h
  | cons r rest ih =>
      intro k r' h
      unfold update_scores at h
      by_cases hr : r.reviewId == rid
      · rw [if_pos hr] at h
        cases k with
        | zero =>
            simp only [List.getElem?_cons_zero, Option.some.injEq] at h
            exact Or.inl (by rw [← h])
        | succ k =>
            simp only [List.getElem?_cons_succ] at h ⊢
            exact Or.inr h
      · rw [if_neg hr] at h
        cases k with
        | zero =>
            simp only [List.getElem?_cons_zero] at h ⊢
            exact Or.inr h
        | succ k =>
            simp only [List.getElem?_cons_succ] at h ⊢
            exact ih k r' h

theorem update_scores_getElem (store : List StoredReview) (rid : String)
    (val : List ValutazioneItem) (now : Nat)
    (hnodup : (store.map (·.reviewId)).Nodup) :
    ∀ (k : Nat) (r0 : StoredReview), store[k]? = some r0 →
      (update_scores store rid val now).1[k]? =
        some (if r0.reviewId = rid then
          { r0 with valutazione := val, stato := .complete,
                    updatedAt := some now }
         else r0) := by
  induction store with
  | nil => intro k r0 h; simp at h
  | cons r rest ih =>
      intro k r0 h
      simp only [List.map_cons, List.nodup_cons] at hnodup
      unfold update_scores
      by_cases hr : r.reviewId == rid
      · have heq : r.reviewId = rid := by rwa [beq_iff_eq] at hr
        rw [if_pos hr]
        cases k with
        | zero =>
            simp only [List.getElem?_cons_zero, Option.some.injEq] at h
            simp only [List.getElem?_cons_zero, Option.some.injEq]
            rw [← h, if_pos heq]
        | succ k =>
            simp only [List.getElem?_cons_succ] at h ⊢
            rw [if_neg, h]
            intro hc
            apply hnodup.1
            rw [heq, ← hc]
            exact List.mem_map_of_mem (·.reviewId) (List.getElem?_mem h)
      · have hne : r.reviewId ≠ rid := by
          rw [beq_iff_eq] at hr
          exact hr
        rw [if_neg hr]
        cases k with
        | zero =>
            simp only [List.getElem?_cons_zero, Option.some.injEq] at h
            simp only [List.getElem?_cons_zero, Option.some.injEq]
            rw [← h, if_neg hne]
        | succ k =>
            simp only [List.getElem?_cons_succ] at h ⊢
            exact ih hnodup.2 k r0 h

theorem update_scores_matched (store : List StoredReview) (rid : String)
    (val : List ValutazioneItem) (now : Nat)
    (h : ∃ r ∈ store, r.reviewId = rid) :
    (update_scores store rid val now).2 = true := by
  induction store with
  | nil => simp at h
  | cons r rest ih =>
      unfold update_scores
      by_cases hr : r.reviewId == rid
      · rw [if_pos hr]
      · rw [if_neg hr]
        simp only
        apply ih
        obtain ⟨x, hx, hxe⟩ := h
        rcases List.mem_cons.mp hx with hx0 | hx1
        · exfalso
          apply hr
          rw [beq_iff_eq, ← hx0]
          exact hxe
        · exact ⟨x, hx1, hxe⟩

/-! ## Claims about the review ledger and the consumer -/

/-- C3 (evaluation at the failing input): `start_process` invoked by a
teacher with the repository test's payload (two pairs, three rubric
criteria) produces exactly one draft per pair with `stato = pending`,
`createdAt = now` and one `punteggio = -1` entry per rubric criterion — and
nothing else: the drafts carry no process identifier field at all (the
`ReviewDoc` shape embeds the draft dict built by the service), and the
service-level operation returns the `assignmentId` as its "process id"
rather than a freshly generated identifier. -/
theorem start_process_no_process_id_eval :
    start_process
      ⟨"ASSIGN-001", false, 99, [⟨"s-1", "SUB-100"⟩, ⟨"s-2", "SUB-200"⟩],
        [⟨"Chiarezza"⟩, ⟨"Correttezza"⟩, ⟨"Completezza"⟩]⟩
      ⟨"t-1", .scalar "teacher"⟩ 5 =
      .ok [⟨"ASSIGN-001", "s-1", "SUB-100", 5, 99, .pending,
             [⟨"Chiarezza", -1⟩, ⟨"Correttezza", -1⟩, ⟨"Completezza", -1⟩]⟩,
           ⟨"ASSIGN-001", "s-2", "SUB-200", 5, 99, .pending,
             [⟨"Chiarezza", -1⟩, ⟨"Correttezza", -1⟩, ⟨"Completezza", -1⟩]⟩] ∧
    (startProcessOp []
      ⟨"ASSIGN-001", false, 99, [⟨"s-1", "SUB-100"⟩, ⟨"s-2", "SUB-200"⟩],
        [⟨"Chiarezza"⟩, ⟨"Correttezza"⟩, ⟨"Completezza"⟩]⟩
      ⟨"t-1", .scalar "teacher"⟩ 5 [1, 2]).2 = .ok "ASSIGN-001" :=
  ⟨by decide, by decide⟩

/-- C7 (evaluation at the failing input): when `random.randint(0, 99999)`
returns `7` twice during one bulk creation of two drafts, both reviews are
assigned the same `reviewId` `"rv-00007"` — the generated ids are not
unique. -/
theorem duplicate_review_id_eval :
    create_review_id 7 = "rv-00007" ∧
    (bulk_create_reviews []
      [⟨"A1", "s-1", "SUB-1", 0, 9, .pending, []⟩,
       ⟨"A1", "s-2", "SUB-2", 0, 9, .pending, []⟩] [7, 7]).2 =
      ["rv-00007", "rv-00007"] ∧
    ¬ ((bulk_create_reviews []
      [⟨"A1", "s-1", "SUB-1", 0, 9, .pending, []⟩,
       ⟨"A1", "s-2", "SUB-2", 0, 9, .pending, []⟩] [7, 7]).2).Nodup ∧
    ((bulk_create_reviews []
      [⟨"A1", "s-1", "SUB-1", 0, 9, .pending, []⟩,
       ⟨"A1", "s-2", "SUB-2", 0, 9, .pending, []⟩] [7, 7]).1.map
        (·.reviewId)) = ["rv-00007", "rv-00007"] :=
  ⟨by decide, by decide, by decide, by decide⟩

/-- C8: `startProcess` invoked by a caller whose scalar role is not
"teacher" and whose role collection does not contain "teacher" fails with
the permission error and leaves the store unchanged (zero reviews created);
and `submit` invoked by a student on a review id not owned by them (absent,
or owned by another reviewer) returns `false` without changing the store. -/
theorem role_and_ownership_gating :
    (∀ (store : List StoredReview) (data : ReviewProcessCreate)
       (user : UserContext) (now : Nat) (rands : List Nat),
       (∀ v, user.role = .scalar v → v ≠ "teacher") →
       (∀ vs, user.role = .collection vs → "teacher" ∉ vs) →
       startProcessOp store data user now rands =
         (store, .error "PermissionError")) ∧
    (∀ (store : List StoredReview) (user : UserContext) (rid : String)
       (val : List ValutazioneItem) (now : Nat),
       is_student user.role = true →
       (∀ r ∈ store, ¬(r.reviewId = rid ∧ r.reviewerId = user.user_id)) →
       submitReviewOp store user rid val now = (store, .ok false)) := by
  constructor
  · intro store data user now rands hscalar hcoll
    have hteacher : is_teacher user.role = false := by
      cases hrole : user.role with
      | scalar v =>
          show (v == "teacher") = false
          rw [beq_eq_false_iff_ne]
          exact hscalar v hrole
      | collection vs =>
          show vs.contains "teacher" = false
          cases hc : vs.contains "teacher" with
          | false => rfl
          | true =>
              exfalso
              apply hcoll vs hrole
              rw [List.contains_iff_exists_mem_beq] at hc
              obtain ⟨x, hx, hxe⟩ := hc
              rw [beq_iff_eq] at hxe
              rw [hxe]
              exact hx
    unfold startProcessOp start_process
    rw [hteacher]
    rfl
  · intro store user rid val now hstu hnotowned
    have hnone : by_id_for_student store rid user.user_id = none := by
      unfold by_id_for_student
      rw [List.find?_eq_none]
      intro r hr hc
      rw [Bool.and_eq_true] at hc
      rw [beq_iff_eq] at hc
      rw [beq_iff_eq] at hc
      exact hnotowned r hr hc
    unfold submitReviewOp
    rw [if_pos hstu, hnone]

/-- Witness for C8: a student caller cannot start a process (store
unchanged), and a student submitting on a review owned by another student
gets `false` with the store unchanged. -/
theorem role_and_ownership_gating_witness :
    (∀ v, (⟨"s-1", .scalar "student"⟩ : UserContext).role = .scalar v →
      v ≠ "teacher") ∧
    (∀ vs, (⟨"s-1", .scalar "student"⟩ : UserContext).role =
      .collection vs → "teacher" ∉ vs) ∧
    startProcessOp []
      ⟨"A1", false, 9, [⟨"s-1", "SUB-1"⟩], [⟨"C1"⟩]⟩
      ⟨"s-1", .scalar "student"⟩ 0 [] = ([], .error "PermissionError") ∧
    is_student (⟨"s-2", .scalar "student"⟩ : UserContext).role = true ∧
    (∀ r ∈ [(⟨"rv-00001", "A1", "s-1", "SUB-2", 0, 9, .pending, [],
        none⟩ : StoredReview)],
      ¬(r.reviewId = "rv-00001" ∧ r.reviewerId = "s-2")) ∧
    submitReviewOp
      [(⟨"rv-00001", "A1", "s-1", "SUB-2", 0, 9, .pending, [], none⟩ :
        StoredReview)]
      ⟨"s-2", .scalar "student"⟩ "rv-00001" [] 0 =
      ([(⟨"rv-00001", "A1", "s-1", "SUB-2", 0, 9, .pending, [], none⟩ :
        StoredReview)], .ok false) := by
  refine ⟨?_, ?_, ?_, rfl, by decide, ?_⟩
  · intro v h
    cases h
    decide
  · intro vs h
    cases h
  · exact role_and_ownership_gating.1 []
      ⟨"A1", false, 9, [⟨"s-1", "SUB-1"⟩], [⟨"C1"⟩]⟩
      ⟨"s-1", .scalar "student"⟩ 0 []
      (fun v h => by cases h; decide) (fun vs h => by cases h)
  · exact role_and_ownership_gating.2
      [⟨"rv-00001", "A1", "s-1", "SUB-2", 0, 9, .pending, [], none⟩]
      ⟨"s-2", .scalar "student"⟩ "rv-00001" [] 0 rfl (by decide)

/-- C9 (counterexample): an ingestor configured with
`requeue_on_error = True` negatively-acknowledges an undecodable message
with `requeue = true` — not `requeue = false` as the claim demands
regardless of configuration. -/
theorem decode_failure_nack_cex :
    on_message true none (Except.ok true) = MsgAction.nack true ∧
    MsgAction.nack true ≠ MsgAction.nack false :=
  ⟨rfl, by decide⟩

/-- C9 (amended): on a body that fails to decode the handler
negatively-acknowledges with the configured `requeue_on_error` flag
(regardless of the save outcome), so with the constructor default
(`false`) decode failures are not redelivered; the handler is total, so
processing continues with subsequent messages. -/
theorem decode_failure_nack (cfg : Bool) (saveResult : Except String Bool) :
    on_message cfg none saveResult = MsgAction.nack cfg ∧
    on_message defaultRequeueOnError none saveResult =
      MsgAction.nack false :=
  ⟨rfl, rfl⟩

/-- C10: submit succeeds for any review owned by the calling student
regardless of its current stato — a review already `complete` is matched
again and its `valutazione`, `stato` and `updatedAt` are overwritten — and
no ledger operation ever turns a stored review's stato from `complete` back
to `pending` (positions of existing reviews either keep their record or
have it set to `complete`). -/
theorem submit_complete_terminal :
    (∀ (store : List StoredReview) (user : UserContext) (rid : String)
       (val : List ValutazioneItem) (now : Nat) (r : StoredReview),
       is_student user.role = true →
       by_id_for_student store rid user.user_id = some r →
       (store.map (·.reviewId)).Nodup →
       ∃ store', submitReviewOp store user rid val now = (store', .ok true) ∧
         ∀ (k : Nat) (r0 : StoredReview), store[k]? = some r0 →
           store'[k]? = some (if r0.reviewId = rid then
             { r0 with valutazione := val, stato := .complete,
                       updatedAt := some now }
            else r0)) ∧
    (∀ (op : LedgerOp) (store : List StoredReview) (k : Nat)
       (r0 : StoredReview), store[k]? = some r0 → r0.stato = .complete →
       ∀ r', (applyOp op store)[k]? = some r' → r'.stato = .complete) := by
  constructor
  · intro store user rid val now r hstu hown hnodup
    have hrmem : r ∈ store := by
      unfold by_id_for_student at hown
      exact List.mem_of_find?_eq_some hown
    have hrid : r.reviewId = rid := by
      unfold by_id_for_student at hown
      have := List.find?_some hown
      rw [Bool.and_eq_true] at this
      rw [beq_iff_eq] at this
      exact this.1
    have hmatched : (update_scores store rid val now).2 = true :=
      update_scores_matched store rid val now ⟨r, hrmem, hrid⟩
    refine ⟨(update_scores store rid val now).1, ?_, ?_⟩
    · unfold submitReviewOp
      rw [if_pos hstu, hown]
      simp only
      rw [hmatched]
    · intro k r0 h0
      exact update_scores_getElem store rid val now hnodup k r0 h0
  · intro op store k r0 h0 hc r' h'
    cases op with
    | startProcess data user now rands =>
        have happ : applyOp (LedgerOp.startProcess data user now rands)
            store = (startProcessOp store data user now rands).1 := rfl
        rw [happ] at h'
        unfold startProcessOp at h'
        cases hsp : start_process data user now with
        | error e =>
            rw [hsp] at h'
            have h2 : store[k]? = some r' := h'
            rw [h0] at h2
            cases h2
            exact hc
        | ok docs =>
            rw [hsp] at h'
            have h2 : ((bulk_create_reviews store docs rands).1)[k]? =
                some r' := h'
            obtain ⟨prepared, hb⟩ :
                ∃ prepared, (bulk_create_reviews store docs rands).1 =
                  store ++ prepared := ⟨_, rfl⟩
            rw [hb] at h2
            have hk : k < store.length := by
              obtain ⟨hlt, _⟩ := List.getElem?_eq_some.mp h0
              exact hlt
            rw [List.getElem?_append_left hk] at h2
            rw [h0] at h2
            cases h2
            exact hc
    | submit user rid val now =>
        have happ : applyOp (LedgerOp.submit user rid val now) store =
            (submitReviewOp store user rid val now).1 := rfl
        rw [happ] at h'
        unfold submitReviewOp at h'
        cases hst : is_student user.role with
        | false =>
            rw [hst] at h'
            have h2 : store[k]? = some r' := h'
            rw [h0] at h2
            cases h2
            exact hc
        | true =>
            rw [hst] at h'
            cases hb : by_id_for_student store rid user.user_id with
            | none =>
                rw [hb] at h'
                have h2 : store[k]? = some r' := h'
                rw [h0] at h2
                cases h2
                exact hc
            | some rr =>
                rw [hb] at h'
                have h2 : (update_scores store rid val now).1[k]? =
                    some r' := h'
                rcases update_scores_stato store rid val now k r' h2 with
                  hdone | hsame
                · exact hdone
                · rw [h0] at hsame
                  cases hsame
                  exact hc
    | listMine user stato =>
        have happ : applyOp (LedgerOp.listMine user stato) store =
            store := rfl
        rw [happ] at h'
        rw [h0] at h'
        cases h'
        exact hc
    | getMine user rid =>
        have happ : applyOp (LedgerOp.getMine user rid) store = store := rfl
        rw [happ] at h'
        rw [h0] at h'
        cases h'
        exact hc
    | listForAssignment user aid =>
        have happ : applyOp (LedgerOp.listForAssignment user aid) store =
            store := rfl
        rw [happ] at h'
        rw [h0] at h'
        cases h'
        exact hc

/-- Witness for C10: resubmitting an already-complete review owned by the
caller succeeds and overwrites it, and the submit operation preserves
`complete` at the concrete store. -/
theorem submit_complete_terminal_witness :
    is_student (⟨"s-1", .scalar "student"⟩ : UserContext).role = true ∧
    by_id_for_student
      [(⟨"rv-00001", "A1", "s-1", "SUB-2", 0, 9, .complete,
        [⟨"C1", 8⟩], some 3⟩ : StoredReview)] "rv-00001" "s-1" =
      some ⟨"rv-00001", "A1", "s-1", "SUB-2", 0, 9, .complete,
        [⟨"C1", 8⟩], some 3⟩ ∧
    (([(⟨"rv-00001", "A1", "s-1", "SUB-2", 0, 9, .complete,
        [⟨"C1", 8⟩], some 3⟩ : StoredReview)]).map (·.reviewId)).Nodup ∧
    (∃ store', submitReviewOp
      [(⟨"rv-00001", "A1", "s-1", "SUB-2", 0, 9, .complete,
        [⟨"C1", 8⟩], some 3⟩ : StoredReview)]
      ⟨"s-1", .scalar "student"⟩ "rv-00001" [⟨"C1", 9⟩] 7 =
        (store', .ok true) ∧
      ∀ (k : Nat) (r0 : StoredReview),
        [(⟨"rv-00001", "A1", "s-1", "SUB-2", 0, 9, .complete,
          [⟨"C1", 8⟩], some 3⟩ : StoredReview)][k]? = some r0 →
        store'[k]? = some (if r0.reviewId = "rv-00001" then
          { r0 with valutazione := [⟨"C1", 9⟩], stato := .complete,
                    updatedAt := some 7 }
         else r0)) ∧
    ([(⟨"rv-00001", "A1", "s-1", "SUB-2", 0, 9, .complete,
        [⟨"C1", 8⟩], some 3⟩ : StoredReview)][0]? =
      some ⟨"rv-00001", "A1", "s-1", "SUB-2", 0, 9, .complete,
        [⟨"C1", 8⟩], some 3⟩) ∧
    ∀ r', (applyOp
      (.submit ⟨"s-1", .scalar "student"⟩ "rv-00001" [⟨"C1", 9⟩] 7)
      [(⟨"rv-00001", "A1", "s-1", "SUB-2", 0, 9, .complete,
        [⟨"C1", 8⟩], some 3⟩ : StoredReview)])[0]? = some r' →
      r'.stato = .complete := by
  refine ⟨rfl, by decide, by decide, ?_, by decide, ?_⟩
  · exact submit_complete_terminal.1
      [⟨"rv-00001", "A1", "s-1", "SUB-2", 0, 9, .complete,
        [⟨"C1", 8⟩], some 3⟩]
      ⟨"s-1", .scalar "student"⟩ "rv-00001" [⟨"C1", 9⟩] 7
      ⟨"rv-00001", "A1", "s-1", "SUB-2", 0, 9, .complete,
        [⟨"C1", 8⟩], some 3⟩ rfl (by decide) (by decide)
  · exact fun r' h' => submit_complete_terminal.2
      (.submit ⟨"s-1", .scalar "student"⟩ "rv-00001" [⟨"C1", 9⟩] 7)
      [⟨"rv-00001", "A1", "s-1", "SUB-2", 0, 9, .complete,
        [⟨"C1", 8⟩], some 3⟩] 0
      ⟨"rv-00001", "A1", "s-1", "SUB-2", 0, 9, .complete,
        [⟨"C1", 8⟩], some 3⟩ (by decide) rfl r' h'
